import Mathlib

/-!
Verification of the jotin note-store core (src/src-tauri/src/lib.rs).

The Rust source is shallowly embedded as executable Lean definitions:

* `Note` mirrors the `Note` struct (all four fields, `updated_at` optional).
* The on-disk state is a `Disk := Option (List Char)`: `none` models a
  missing notes file, `some raw` models a file whose content is `raw`.
  Rust `&str`/`String` values are modelled as Lean `String`/`List Char`;
  UTF-8 byte-lexicographic comparison coincides with code-point
  lexicographic comparison, which `lexLeChars` implements.
* `serde_json::to_string_pretty` / `serde_json::from_str::<Vec<Note>>` are
  modelled by the executable `encodeNotes` / `parseNotes` below: a JSON
  serializer specialised to the exact document shape the program writes
  (pretty-printed array of objects with fields `id`, `text`, `created_at`,
  `updated_at`, strings escaped the way serde_json escapes them) and a
  whitespace-tolerant parser for that shape. The parser agrees with
  serde_json on the serializer's image and on documents that are not
  JSON arrays at all (both fail); on other array-shaped documents it is
  stricter than serde (fixed member order, no unknown members), and
  statements about parse failures are confined to the agreeing classes.
* Rust's `str::trim` / `char::is_whitespace` (the Unicode White_Space
  property) are modelled by `rustTrim` / `rustIsWhitespace`; the JSON
  parser's own whitespace skipping uses the four-character JSON class.
* `create_note`, `list_notes` and `delete_note` are translated line by
  line from the source; each returns its `Result` together with the disk
  after the call, so frame conditions ("performs no write") are statable.
  The fresh UUID and the `Utc::now` timestamp are nondeterministic inputs
  of the Rust code and become explicit parameters.
* `fs::write` + `fs::rename` in `save_notes_to_path` always succeed in the
  model (the claims under study concern the content of the target file,
  not I/O failures); the temporary sibling file is not authoritative and
  is not part of the modelled state.
-/

namespace Jotin

/-- Model of the `Note` struct: `id`, `text`, `created_at`, `updated_at`. -/
structure Note where
  id : String
  text : String
  created_at : String
  updated_at : Option String
deriving DecidableEq, Repr

/-- The content of the notes file: `none` when the file does not exist. -/
abbrev Disk := Option (List Char)

/-! ### JSON text model (serde_json specialised to `Vec<Note>`) -/

/-- Lower-case hexadecimal digit, as serde_json emits in `\u00XX` escapes. -/
def hexDigit (n : Nat) : Char :=
  if n < 10 then Char.ofNat (48 + n) else Char.ofNat (97 + (n - 10))

/-- Value of one hexadecimal digit character, upper or lower case. -/
def hexVal (c : Char) : Option Nat :=
  if 48 ≤ c.toNat ∧ c.toNat ≤ 57 then some (c.toNat - 48)
  else if 97 ≤ c.toNat ∧ c.toNat ≤ 102 then some (c.toNat - 87)
  else if 65 ≤ c.toNat ∧ c.toNat ≤ 70 then some (c.toNat - 55)
  else none

/-- How serde_json escapes one character inside a JSON string literal:
`"` and `\` get a backslash, the named control characters use their short
escapes, the remaining control characters use `\u00XX`, and every other
character is emitted literally. -/
def escapeChar (c : Char) : List Char :=
  if c = '\"' then ['\\', '\"']
  else if c = '\\' then ['\\', '\\']
  else if c = '\x08' then ['\\', 'b']
  else if c = '\x0c' then ['\\', 'f']
  else if c = '\n' then ['\\', 'n']
  else if c = '\r' then ['\\', 'r']
  else if c = '\t' then ['\\', 't']
  else if c.toNat < 32 then
    ['\\', 'u', '0', '0', hexDigit (c.toNat / 16), hexDigit (c.toNat % 16)]
  else [c]

/-- Escape a whole character sequence. -/
def encodeChars : List Char → List Char
  | [] => []
  | c :: cs => escapeChar c ++ encodeChars cs

/-- Unicode scalar values (what a `\uXXXX` escape may denote in this model). -/
def validScalar (n : Nat) : Bool := n < 55296 || (57344 ≤ n && n < 1114112)

/-- Body of a JSON string literal after the opening quote: collects
characters until the closing quote, decoding backslash escapes, and
returns the decoded characters together with the input after the quote.
Unescaped control characters are rejected, as serde_json rejects them. -/
def parseStringBody : List Char → Option (List Char × List Char)
  | [] => none
  | c :: cs =>
    if c = '\"' then some ([], cs)
    else if c = '\\' then
      match cs with
      | [] => none
      | e :: cs1 =>
        if e = '\"' then (parseStringBody cs1).map (fun r => ('\"' :: r.1, r.2))
        else if e = '\\' then (parseStringBody cs1).map (fun r => ('\\' :: r.1, r.2))
        else if e = '/' then (parseStringBody cs1).map (fun r => ('/' :: r.1, r.2))
        else if e = 'b' then (parseStringBody cs1).map (fun r => ('\x08' :: r.1, r.2))
        else if e = 'f' then (parseStringBody cs1).map (fun r => ('\x0c' :: r.1, r.2))
        else if e = 'n' then (parseStringBody cs1).map (fun r => ('\n' :: r.1, r.2))
        else if e = 'r' then (parseStringBody cs1).map (fun r => ('\r' :: r.1, r.2))
        else if e = 't' then (parseStringBody cs1).map (fun r => ('\t' :: r.1, r.2))
        else if e = 'u' then
          match cs1 with
          | h1 :: h2 :: h3 :: h4 :: cs2 =>
            match hexVal h1, hexVal h2, hexVal h3, hexVal h4 with
            | some v1, some v2, some v3, some v4 =>
              let n := ((v1 * 16 + v2) * 16 + v3) * 16 + v4
              if validScalar n then
                (parseStringBody cs2).map (fun r => (Char.ofNat n :: r.1, r.2))
              else none
            | _, _, _, _ => none
          | _ => none
        else none
    else if c.toNat < 32 then none
    else (parseStringBody cs).map (fun r => (c :: r.1, r.2))

/-- Skip JSON whitespace. -/
def skipWs : List Char → List Char
  | [] => []
  | c :: cs => if c.isWhitespace then skipWs cs else c :: cs

/-- Expect the token `t` after optional whitespace. -/
def expectTok (t : Char) (cs : List Char) : Option (List Char) :=
  match skipWs cs with
  | c :: cs1 => if c = t then some cs1 else none
  | [] => none

/-- Parse one JSON string literal after optional whitespace. -/
def parseJString (cs : List Char) : Option (String × List Char) :=
  match skipWs cs with
  | c :: cs1 =>
    if c = '\"' then (parseStringBody cs1).map (fun r => (String.mk r.1, r.2))
    else none
  | [] => none

/-- Parse the object key `key` followed by a colon. -/
def parseKey (key : String) (cs : List Char) : Option (List Char) :=
  (parseJString cs).bind fun p =>
    if p.1 = key then expectTok ':' p.2 else none

/-- Parse a `"key": "value"` member whose value is a string. -/
def parseStringField (key : String) (cs : List Char) : Option (String × List Char) :=
  (parseKey key cs).bind fun cs1 => parseJString cs1

/-- Parse a value that is either `null` or a string (the `updated_at` field). -/
def parseOptStringValue (cs : List Char) : Option (Option String × List Char) :=
  match skipWs cs with
  | c :: cs1 =>
    if c = '\"' then (parseStringBody cs1).map (fun r => (some (String.mk r.1), r.2))
    else if c = 'n' then
      match cs1 with
      | u :: l1 :: l2 :: cs2 =>
        if u = 'u' then if l1 = 'l' then if l2 = 'l' then some (none, cs2)
        else none else none else none
      | _ => none
    else none
  | [] => none

/-- Parse one serialized `Note` object, fields in declaration order. -/
def parseNote (cs : List Char) : Option (Note × List Char) :=
  (expectTok '\x7b' cs).bind fun cs0 =>
  (parseStringField "id" cs0).bind fun p1 =>
  (expectTok ',' p1.2).bind fun cs2 =>
  (parseStringField "text" cs2).bind fun p2 =>
  (expectTok ',' p2.2).bind fun cs4 =>
  (parseStringField "created_at" cs4).bind fun p3 =>
  (expectTok ',' p3.2).bind fun cs6 =>
  (parseKey "updated_at" cs6).bind fun cs7 =>
  (parseOptStringValue cs7).bind fun p4 =>
  (expectTok '\x7d' p4.2).map fun cs9 =>
  ({ id := p1.1, text := p2.1, created_at := p3.1, updated_at := p4.1 }, cs9)

/-- Parse a comma-separated sequence of note objects up to the closing
bracket. The fuel argument only bounds the recursion; any fuel of at
least the number of items is enough. -/
def parseItemsAux : Nat → List Char → Option (List Note × List Char)
  | 0, _ => none
  | fuel + 1, cs =>
    (parseNote cs).bind fun p =>
      match skipWs p.2 with
      | c :: cs1 =>
        if c = ',' then
          (parseItemsAux fuel cs1).map (fun r => (p.1 :: r.1, r.2))
        else if c = ']' then some ([p.1], cs1)
        else none
      | [] => none

/-- Parse a whole notes document: a JSON array of note objects followed by
nothing but whitespace. -/
def parseNotes (cs : List Char) : Option (List Note) :=
  match expectTok '[' cs with
  | none => none
  | some cs1 =>
    match expectTok ']' cs1 with
    | some cs2 => if cs2.all Char.isWhitespace then some [] else none
    | none =>
      match parseItemsAux (cs1.length + 1) cs1 with
      | some (ns, rest) => if rest.all Char.isWhitespace then some ns else none
      | none => none

/-- Whether the document's first character after JSON whitespace is the
opening bracket of an array. A document for which this is false is not a
JSON array, so deserializing it into a vector fails — in serde_json just
as in this model. -/
def startsWithBracket (cs : List Char) : Bool :=
  match skipWs cs with
  | c :: _ => c = '['
  | [] => false

/-- Serialize one string as a JSON string literal. -/
def encodeJString (s : String) : List Char :=
  '\"' :: (encodeChars s.data ++ ['\"'])

/-- Serialize the `updated_at` field value: `null` or a string. -/
def encodeUpdatedAt : Option String → List Char
  | none => ['n', 'u', 'l', 'l']
  | some s => encodeJString s

/-- Opening of a pretty-printed note object: two-space indent, brace,
newline, four-space member indent. -/
def noteOpen : List Char := [' ', ' ', '\x7b', '\n', ' ', ' ', ' ', ' ']

/-- Separator between members: comma, newline, four-space indent. -/
def fieldSep : List Char := [',', '\n', ' ', ' ', ' ', ' ']

/-- Colon and space between a key and its value. -/
def colonSp : List Char := [':', ' ']

/-- Closing of a note object: newline, two-space indent, brace. -/
def noteClose : List Char := ['\n', ' ', ' ', '\x7d']

/-- Serialize one `Note` the way `serde_json::to_string_pretty` lays out an
object nested one level inside an array. -/
def encodeNote (n : Note) : List Char :=
  noteOpen ++ encodeJString "id" ++ colonSp ++ encodeJString n.id
    ++ fieldSep ++ encodeJString "text" ++ colonSp ++ encodeJString n.text
    ++ fieldSep ++ encodeJString "created_at" ++ colonSp ++ encodeJString n.created_at
    ++ fieldSep ++ encodeJString "updated_at" ++ colonSp ++ encodeUpdatedAt n.updated_at
    ++ noteClose

/-- Serialize a non-empty list of notes, separated by comma and newline. -/
def encodeSeq : Note → List Note → List Char
  | n, [] => encodeNote n
  | n, m :: ms => encodeNote n ++ ',' :: '\n' :: encodeSeq m ms

/-- Serialize a whole collection: the pretty-printed JSON array. -/
def encodeNotes : List Note → List Char
  | [] => ['[', ']']
  | n :: ns => '[' :: '\n' :: (encodeSeq n ns ++ ['\n', ']'])

/-! ### The note store (`create_note`, `list_notes`, `delete_note`) -/

/-- Lexicographic comparison of character sequences by code point; for
valid UTF-8 this coincides with Rust's byte-lexicographic `str::cmp`. -/
def lexLeChars : List Char → List Char → Bool
  | [], _ => true
  | _ :: _, [] => false
  | a :: as, b :: bs =>
    if a.toNat < b.toNat then true
    else if b.toNat < a.toNat then false
    else lexLeChars as bs

/-- Model of Rust string comparison `a ≤ b`. -/
def strLe (a b : String) : Bool := lexLeChars a.data b.data

/-- Model of Rust `char::is_whitespace`: the Unicode White_Space property,
i.e. U+0009..U+000D, U+0020, U+0085, U+00A0, U+1680, U+2000..U+200A,
U+2028, U+2029, U+202F, U+205F and U+3000. This is the class `str::trim`
strips; it is wider than the four-character JSON whitespace class
`skipWs` uses inside the parser. -/
def rustIsWhitespace (c : Char) : Bool :=
  let n := c.toNat
  (9 ≤ n && n ≤ 13) || n = 32 || n = 133 || n = 160 || n = 5760 ||
  (8192 ≤ n && n ≤ 8202) || n = 8232 || n = 8233 || n = 8239 ||
  n = 8287 || n = 12288

/-- Model of Rust `str::trim`: remove leading and trailing Unicode
whitespace. Defined over the character data so that it evaluates inside
the kernel. -/
def rustTrim (s : String) : String :=
  String.mk (((s.data.dropWhile rustIsWhitespace).reverse.dropWhile
    rustIsWhitespace).reverse)

/-- Message of the `InvalidInput` rejection in `create_note`. -/
def emptyTextMsg : String := "Note text cannot be empty"

/-- Message of the `NotFound` rejection in `delete_note`. -/
def notFoundMsg : String := "Note not found"

/-- Message prefix of the `StorageCorrupt` failure in `load_notes_from_path`. -/
def parseErrMsg : String := "Failed to parse notes file"

/-- Model of `load_notes_from_path`: a missing file is the empty
collection, a file whose trimmed content is empty is the empty collection,
anything else is parsed, with a parse failure reported as an error
(ErrorKind `StorageCorrupt`). -/
def load_notes_from_path : Disk → Except String (List Note)
  | none => .ok []
  | some raw =>
    if raw.all rustIsWhitespace then .ok []
    else
      match parseNotes raw with
      | some notes => .ok notes
      | none => .error parseErrMsg

/-- Model of `save_notes_to_path`: the target file ends up holding exactly
the serialized collection (via the temp-file-and-rename dance, whose
success paths all leave this content at the target path). -/
def save_notes_to_path (_disk : Disk) (notes : List Note) : Disk :=
  some (encodeNotes notes)

/-- Comparator of `list_notes`: `b.created_at.cmp(&a.created_at)`, i.e.
descending by `created_at`. -/
def noteLe (a b : Note) : Bool := strLe b.created_at a.created_at

/-- Model of `create_note`. The fresh UUID (`newId`) and the current
timestamp (`now`) are explicit inputs. Returns the command result paired
with the disk after the call. -/
def create_note (newId now : String) (text : String) (disk : Disk) :
    Except String Note × Disk :=
  let note_text := rustTrim text
  if note_text = "" then (.error emptyTextMsg, disk)
  else
    match load_notes_from_path disk with
    | .error e => (.error e, disk)
    | .ok notes =>
      let note : Note :=
        { id := newId, text := note_text, created_at := now, updated_at := none }
      (.ok note, save_notes_to_path disk (notes ++ [note]))

/-- Model of `list_notes`: load, then stable-sort by `created_at`
descending (`sort_by` in Rust is a stable sort; `List.mergeSort` is the
stable sort of the Lean library). -/
def list_notes (disk : Disk) : Except String (List Note) × Disk :=
  match load_notes_from_path disk with
  | .error e => (.error e, disk)
  | .ok notes => (.ok (notes.mergeSort noteLe), disk)

/-- Model of `delete_note`: load, retain the notes whose id differs, fail
with `NotFound` when nothing was removed, otherwise persist. -/
def delete_note (id : String) (disk : Disk) : Except String Unit × Disk :=
  match load_notes_from_path disk with
  | .error e => (.error e, disk)
  | .ok notes =>
    let remaining := notes.filter (fun note => note.id ≠ id)
    if remaining.length = notes.length then (.error notFoundMsg, disk)
    else (.ok (), save_notes_to_path disk remaining)

/-! ### The capture-window placement (`position_capture_window_near_cursor`) -/

/-- Rust `f64::clamp` (defined for `lo ≤ hi`), with the reals modelled
exactly by `ℚ`. -/
def fclamp (x lo hi : ℚ) : ℚ := if x < lo then lo else if x > hi then hi else x

/-- One axis of the placement computed by
`position_capture_window_near_cursor` once a containing work area is
found: offset the cursor by 14, then clamp to
`[origin, origin + size - win]`, pinning to `origin` when the window is
larger than the work area. -/
def positionCaptureCoord (cursor origin size win : ℚ) : ℚ :=
  let raw := cursor + 14
  let maxC := origin + size - win
  if maxC < origin then origin else fclamp raw origin maxC

/-- A display's work area: origin and size on both axes. -/
structure WorkArea where
  left : ℚ
  top : ℚ
  width : ℚ
  height : ℚ

/-- The two-axis placement of the capture window inside a containing work
area (source lines 220-234): both axes use the same clamp. -/
def position_capture_window (cx cy ww wh : ℚ) (area : WorkArea) : ℚ × ℚ :=
  (positionCaptureCoord cx area.left area.width ww,
   positionCaptureCoord cy area.top area.height wh)

/-! ### Round-trip lemmas: the parser inverts the serializer -/

/-- Rebuilding a string from its character data is the identity. -/
theorem mk_data (s : String) : String.mk s.data = s := by
  cases s
  rfl

/-- Decoding inverts encoding for a single hexadecimal digit. -/
theorem hexVal_hexDigit (n : Nat) (h : n < 16) : hexVal (hexDigit n) = some n := by
  interval_cases n <;> decide

/-- Skipping whitespace passes over a whitespace character. -/
theorem skipWs_cons_ws (c : Char) (cs : List Char) (h : c.isWhitespace = true) :
    skipWs (c :: cs) = skipWs cs := by
  simp [skipWs, h]

/-- Skipping whitespace stops at a non-whitespace character. -/
theorem skipWs_cons_nws (c : Char) (cs : List Char) (h : c.isWhitespace = false) :
    skipWs (c :: cs) = c :: cs := by
  simp [skipWs, h]

/-- Skipping whitespace passes over any all-whitespace prefix. -/
theorem skipWs_append_blank (ws cs : List Char) (h : ws.all Char.isWhitespace = true) :
    skipWs (ws ++ cs) = skipWs cs := by
  induction ws with
  | nil => rfl
  | cons c ws ih =>
    simp only [List.all_cons, Bool.and_eq_true] at h
    simpa [skipWs, h.1] using ih h.2

/-- The string-body parser inverts the serde escaping, leaving the suffix
after the closing quote untouched. -/
theorem parseStringBody_encodeChars (l rest : List Char) :
    parseStringBody (encodeChars l ++ '\"' :: rest) = some (l, rest) := by
  induction l with
  | nil =>
    rw [encodeChars, List.nil_append, parseStringBody.eq_def]
    simp
  | cons c l ih =>
    rw [encodeChars, List.append_assoc]
    by_cases h1 : c = '\"'
    · subst h1
      have he : escapeChar '\"' = ['\\', '\"'] := by decide
      rw [he, List.cons_append, List.cons_append, List.nil_append, parseStringBody.eq_def]
      simp [ih]
    · by_cases h2 : c = '\\'
      · subst h2
        have he : escapeChar '\\' = ['\\', '\\'] := by decide
        rw [he, List.cons_append, List.cons_append, List.nil_append, parseStringBody.eq_def]
        simp [ih]
      · by_cases h3 : c = '\x08'
        · subst h3
          have he : escapeChar '\x08' = ['\\', 'b'] := by decide
          rw [he, List.cons_append, List.cons_append, List.nil_append, parseStringBody.eq_def]
          simp [ih]
        · by_cases h4 : c = '\x0c'
          · subst h4
            have he : escapeChar '\x0c' = ['\\', 'f'] := by decide
            rw [he, List.cons_append, List.cons_append, List.nil_append, parseStringBody.eq_def]
            simp [ih]
          · by_cases h5 : c = '\n'
            · subst h5
              have he : escapeChar '\n' = ['\\', 'n'] := by decide
              rw [he, List.cons_append, List.cons_append, List.nil_append, parseStringBody.eq_def]
              simp [ih]
            · by_cases h6 : c = '\r'
              · subst h6
                have he : escapeChar '\r' = ['\\', 'r'] := by decide
                rw [he, List.cons_append, List.cons_append, List.nil_append, parseStringBody.eq_def]
                simp [ih]
              · by_cases h7 : c = '\t'
                · subst h7
                  have he : escapeChar '\t' = ['\\', 't'] := by decide
                  rw [he, List.cons_append, List.cons_append, List.nil_append, parseStringBody.eq_def]
                  simp [ih]
                · by_cases h8 : c.toNat < 32
                  · have hd1 : c.toNat / 16 < 16 := by omega
                    have hd2 : c.toNat % 16 < 16 := by omega
                    have h0 : hexVal '0' = some 0 := by decide
                    rw [escapeChar]
                    simp only [if_neg h1, if_neg h2, if_neg h3, if_neg h4, if_neg h5,
                      if_neg h6, if_neg h7, if_pos h8, List.cons_append, List.nil_append]
                    rw [parseStringBody.eq_def]
                    simp [h0, hexVal_hexDigit _ hd1, hexVal_hexDigit _ hd2, ih]
                    have hmod : c.toNat / 16 * 16 + c.toNat % 16 = c.toNat := by omega
                    rw [hmod]
                    exact ⟨by simp [validScalar]; omega, Char.ofNat_toNat c⟩
                  · rw [escapeChar]
                    simp only [if_neg h1, if_neg h2, if_neg h3, if_neg h4, if_neg h5,
                      if_neg h6, if_neg h7, if_neg h8, List.cons_append, List.nil_append]
                    rw [parseStringBody.eq_def]
                    simp [h1, h2, h8, ih]

/-- The string-literal parser inverts `encodeJString` after any
all-whitespace prefix. -/
theorem parseJString_encode (ws : List Char) (s : String) (rest : List Char)
    (hws : ws.all Char.isWhitespace = true) :
    parseJString (ws ++ encodeJString s ++ rest) = some (s, rest) := by
  simp only [encodeJString, List.append_assoc, List.cons_append, List.nil_append]
  have h1 : skipWs (ws ++ '\"' :: (encodeChars s.data ++ ('\"' :: rest)))
      = '\"' :: (encodeChars s.data ++ ('\"' :: rest)) := by
    rw [skipWs_append_blank _ _ hws, skipWs_cons_nws _ _ (by decide)]
  simp only [parseJString, h1]
  simp [parseStringBody_encodeChars, mk_data]

/-- Expecting a non-whitespace token that stands first succeeds. -/
theorem expectTok_self (t : Char) (rest : List Char) (ht : t.isWhitespace = false) :
    expectTok t (t :: rest) = some rest := by
  simp [expectTok, skipWs_cons_nws _ _ ht]

/-- The key parser inverts the serialized `"key":` member prefix after any
all-whitespace prefix. -/
theorem parseKey_encode (key : String) (ws rest : List Char)
    (hws : ws.all Char.isWhitespace = true) :
    parseKey key (ws ++ encodeJString key ++ ':' :: rest) = some rest := by
  simp only [parseKey, parseJString_encode ws key (':' :: rest) hws, Option.some_bind]
  simp [expectTok_self ':' rest (by decide)]

/-- The string-member parser inverts a serialized `"key": "value"` member
after any all-whitespace prefix. -/
theorem parseStringField_encode (key v : String) (ws rest : List Char)
    (hws : ws.all Char.isWhitespace = true) :
    parseStringField key
      (ws ++ encodeJString key ++ ':' :: ' ' :: (encodeJString v ++ rest))
      = some (v, rest) := by
  simp only [parseStringField, parseKey_encode key ws _ hws, Option.some_bind]
  have := parseJString_encode [' '] v rest (by decide)
  simpa using this

/-- Specialisation of `parseStringField_encode` to the newline-and-indent
prefix the pretty printer puts before every member. -/
theorem parseStringField_encodeIndented (key v : String) (rest : List Char) :
    parseStringField key ('\n' :: ' ' :: ' ' :: ' ' :: ' ' ::
      (encodeJString key ++ ':' :: ' ' :: (encodeJString v ++ rest)))
      = some (v, rest) := by
  have := parseStringField_encode key v ['\n', ' ', ' ', ' ', ' '] rest (by decide)
  simpa using this

/-- Specialisation of `parseKey_encode` to the newline-and-indent prefix. -/
theorem parseKey_encodeIndented (key : String) (rest : List Char) :
    parseKey key ('\n' :: ' ' :: ' ' :: ' ' :: ' ' ::
      (encodeJString key ++ ':' :: rest)) = some rest := by
  have := parseKey_encode key ['\n', ' ', ' ', ' ', ' '] rest (by decide)
  simpa using this

/-- The optional-string parser accepts a serialized `null`. -/
theorem parseOptStringValue_null (rest : List Char) :
    parseOptStringValue (' ' :: 'n' :: 'u' :: 'l' :: 'l' :: rest)
      = some (none, rest) := by
  simp [parseOptStringValue, skipWs]

/-- The optional-string parser inverts a serialized string value. -/
theorem parseOptStringValue_str (v : String) (rest : List Char) :
    parseOptStringValue (' ' :: (encodeJString v ++ rest))
      = some (some v, rest) := by
  simp only [encodeJString, List.cons_append, List.append_assoc, List.nil_append]
  simp [parseOptStringValue, skipWs, parseStringBody_encodeChars, mk_data]

/-- The note parser inverts the note serializer: one serialized note,
preceded by the newline the array layout puts before it, parses back to
the same note and leaves the suffix untouched. -/
theorem parseNote_encode (n : Note) (rest : List Char) :
    parseNote ('\n' :: (encodeNote n ++ rest)) = some (n, rest) := by
  obtain ⟨i, t, ca, ua⟩ := n
  have hopen : ∀ X : List Char, expectTok '\x7b' ('\n' :: ' ' :: ' ' :: '\x7b' :: X)
      = some X := fun X => by simp [expectTok, skipWs]
  have hclose : ∀ X : List Char, expectTok '\x7d' ('\n' :: ' ' :: ' ' :: '\x7d' :: X)
      = some X := fun X => by simp [expectTok, skipWs]
  cases ua with
  | none =>
    simp only [encodeNote, noteOpen, fieldSep, colonSp, noteClose, encodeUpdatedAt,
      List.cons_append, List.nil_append, List.append_assoc]
    simp only [parseNote, hopen, Option.some_bind, parseStringField_encodeIndented,
      expectTok_self ',' _ (by decide), parseKey_encodeIndented,
      parseOptStringValue_null, hclose, Option.map_some']
  | some u =>
    simp only [encodeNote, noteOpen, fieldSep, colonSp, noteClose, encodeUpdatedAt,
      List.cons_append, List.nil_append, List.append_assoc]
    simp only [parseNote, hopen, Option.some_bind, parseStringField_encodeIndented,
      expectTok_self ',' _ (by decide), parseKey_encodeIndented,
      parseOptStringValue_str, hclose, Option.map_some']

/-- A serialized non-empty sequence starts with the two-space indent and
an opening brace. -/
theorem encodeSeq_shape (n : Note) (ms : List Note) :
    ∃ tcs, encodeSeq n ms = ' ' :: ' ' :: '\x7b' :: tcs := by
  cases ms with
  | nil =>
    simp only [encodeSeq, encodeNote, noteOpen, List.cons_append, List.append_assoc]
    exact ⟨_, rfl⟩
  | cons m ms =>
    simp only [encodeSeq, encodeNote, noteOpen, List.cons_append, List.append_assoc]
    exact ⟨_, rfl⟩

/-- A serialized sequence is at least as long as the list it came from. -/
theorem encodeSeq_length (ms : List Note) : ∀ n, ms.length ≤ (encodeSeq n ms).length := by
  induction ms with
  | nil => intro n; simp
  | cons m ms ih =>
    intro n
    have := ih m
    simp only [encodeSeq, List.length_append, List.length_cons]
    omega

/-- The item parser inverts the sequence serializer whenever the fuel
exceeds the number of remaining items. -/
theorem parseItemsAux_encodeSeq (ns : List Note) :
    ∀ (n : Note) (rest : List Char) (fuel : Nat), ns.length < fuel →
    parseItemsAux fuel ('\n' :: (encodeSeq n ns ++ '\n' :: ']' :: rest))
      = some (n :: ns, rest) := by
  induction ns with
  | nil =>
    intro n rest fuel hf
    match fuel, hf with
    | f + 1, _ =>
      rw [parseItemsAux]
      simp only [encodeSeq]
      simp only [parseNote_encode, Option.some_bind]
      simp [skipWs]
  | cons m ms ih =>
    intro n rest fuel hf
    match fuel, hf with
    | f + 1, hf =>
      rw [parseItemsAux]
      simp only [encodeSeq, List.append_assoc, List.cons_append]
      simp only [parseNote_encode, Option.some_bind]
      have hih := ih m rest f (by simp at hf; omega)
      simp [skipWs, hih]

/-- The document parser inverts the document serializer. -/
theorem parseNotes_encodeNotes (ns : List Note) : parseNotes (encodeNotes ns) = some ns := by
  cases ns with
  | nil => decide
  | cons n ms =>
    simp only [encodeNotes]
    obtain ⟨tcs, hseq⟩ := encodeSeq_shape n ms
    have hopen : expectTok '[' ('[' :: '\n' :: (encodeSeq n ms ++ '\n' :: ']' :: []))
        = some ('\n' :: (encodeSeq n ms ++ '\n' :: ']' :: [])) := by
      simp [expectTok, skipWs]
    have hnotclose : expectTok ']' ('\n' :: (encodeSeq n ms ++ '\n' :: ']' :: []))
        = none := by
      rw [hseq]
      simp [expectTok, skipWs]
    have hfuel : ms.length < ('\n' :: (encodeSeq n ms ++ '\n' :: ']' :: [])).length + 1 := by
      have := encodeSeq_length ms n
      simp only [List.length_cons, List.length_append]
      omega
    have hitems := parseItemsAux_encodeSeq ms n []
      (('\n' :: (encodeSeq n ms ++ '\n' :: ']' :: [])).length + 1) hfuel
    simp only [parseNotes, hopen, hnotclose, hitems]
    simp

/-- The serialized document is never all-whitespace (it starts with an
opening bracket). -/
theorem encodeNotes_not_blank (ns : List Note) :
    (encodeNotes ns).all rustIsWhitespace = false := by
  cases ns <;> simp [encodeNotes, (by decide : rustIsWhitespace '[' = false)]

/-- Round trip of the persistence layer: saving a collection and loading
from the same path reproduces it exactly. -/
theorem load_save (disk : Disk) (notes : List Note) :
    load_notes_from_path (save_notes_to_path disk notes) = .ok notes := by
  simp [save_notes_to_path, load_notes_from_path, encodeNotes_not_blank,
    parseNotes_encodeNotes]

/-! ### The comparator of `list_notes` is a total preorder -/

/-- Lexicographic comparison is reflexive. -/
theorem lexLeChars_refl : ∀ as, lexLeChars as as = true := by
  intro as
  induction as with
  | nil => simp [lexLeChars]
  | cons a as ih => simp [lexLeChars, ih]

/-- Lexicographic comparison is total. -/
theorem lexLeChars_total : ∀ as bs, (lexLeChars as bs || lexLeChars bs as) = true := by
  intro as
  induction as with
  | nil => intro bs; simp [lexLeChars]
  | cons a as ih =>
    intro bs
    cases bs with
    | nil => simp [lexLeChars]
    | cons b bs =>
      by_cases h1 : a.toNat < b.toNat
      · simp [lexLeChars, h1]
      · by_cases h2 : b.toNat < a.toNat
        · simp [lexLeChars, h1, h2]
        · simp [lexLeChars, h1, h2, ih bs]

/-- Lexicographic comparison is transitive. -/
theorem lexLeChars_trans : ∀ as bs cs, lexLeChars as bs = true →
    lexLeChars bs cs = true → lexLeChars as cs = true := by
  intro as
  induction as with
  | nil => intro bs cs _ _; simp [lexLeChars]
  | cons a as ih =>
    intro bs cs h1 h2
    cases bs with
    | nil => simp [lexLeChars] at h1
    | cons b bs =>
      cases cs with
      | nil => simp [lexLeChars] at h2
      | cons c cs =>
        simp only [lexLeChars] at h1 h2 ⊢
        by_cases hab : a.toNat < b.toNat
        · by_cases hbc : b.toNat < c.toNat
          · simp [show a.toNat < c.toNat by omega]
          · by_cases hcb : c.toNat < b.toNat
            · simp [hbc, hcb] at h2
            · simp [show a.toNat < c.toNat by omega]
        · by_cases hba : b.toNat < a.toNat
          · simp [hab, hba] at h1
          · by_cases hbc : b.toNat < c.toNat
            · simp [show a.toNat < c.toNat by omega]
            · by_cases hcb : c.toNat < b.toNat
              · simp [hbc, hcb] at h2
              · have h1' : lexLeChars as bs = true := by
                  simpa [hab, hba] using h1
                have h2' : lexLeChars bs cs = true := by
                  simpa [hbc, hcb] using h2
                simp [show ¬ a.toNat < c.toNat by omega,
                  show ¬ c.toNat < a.toNat by omega, ih bs cs h1' h2']

/-- The note comparator is total. -/
theorem noteLe_total : ∀ a b : Note, (noteLe a b || noteLe b a) = true := by
  intro a b
  have := lexLeChars_total b.created_at.data a.created_at.data
  simpa [noteLe, strLe] using this

/-- The note comparator is transitive. -/
theorem noteLe_trans : ∀ a b c : Note, noteLe a b → noteLe b c → noteLe a c := by
  intro a b c h1 h2
  simp only [noteLe, strLe] at h1 h2 ⊢
  exact lexLeChars_trans _ _ _ h2 h1

/-! ### Stability of the sort in `list_notes` -/

/-- Stability of `list_notes`, in filter form: the notes carrying any one
`created_at` value appear in the sorted output exactly in their on-disk
order. -/
theorem mergeSort_filter_created_at (ns : List Note) (t : String) :
    (ns.mergeSort noteLe).filter (fun n => n.created_at == t)
      = ns.filter (fun n => n.created_at == t) := by
  set p : Note → Bool := fun n => n.created_at == t with hp
  have hpair : (ns.filter p).Pairwise (fun a b => noteLe a b = true) := by
    apply List.pairwise_of_forall_mem_list
    intro a ha b hb
    have hat : a.created_at = t := by simpa [hp] using List.of_mem_filter ha
    have hbt : b.created_at = t := by simpa [hp] using List.of_mem_filter hb
    simp [noteLe, strLe, hat, hbt, lexLeChars_refl]
  have hsub : List.Sublist (ns.filter p) (ns.mergeSort noteLe) :=
    List.sublist_mergeSort noteLe_trans noteLe_total hpair (List.filter_sublist ns)
  have hcc : (ns.filter p).filter p = ns.filter p :=
    List.filter_eq_self.mpr (fun a ha => List.of_mem_filter ha)
  have hsub2 : List.Sublist (ns.filter p) ((ns.mergeSort noteLe).filter p) := by
    have := hsub.filter p
    rwa [hcc] at this
  have hperm : List.Perm ((ns.mergeSort noteLe).filter p) (ns.filter p) :=
    (List.mergeSort_perm ns noteLe).filter p
  exact (List.Sublist.eq_of_length hsub2 hperm.length_eq.symm).symm

/-! ### The claims -/

/-- C6: For every collection of Notes, saving it with the persistence
routine and then loading from the same path reproduces the same notes,
with id, text, created_at, and updated_at all equal. -/
theorem save_then_load_roundtrip (disk : Disk) (notes : List Note) :
    load_notes_from_path (save_notes_to_path disk notes) = .ok notes :=
  load_save disk notes

/-- C2: For every input text that is empty or whitespace-only after
trimming, create fails with the `InvalidInput` error ("Note text cannot be
empty") and performs no write: the on-disk collection is unchanged. -/
theorem create_note_rejects_blank (newId now text : String) (disk : Disk)
    (htext : rustTrim text = "") :
    create_note newId now text disk = (.error emptyTextMsg, disk) := by
  simp [create_note, htext]

/-- Witness for C2 at the whitespace-only input "   " on an empty disk. -/
theorem create_note_rejects_blank_witness :
    create_note "id-1" "2024-01-01T00:00:00+00:00" "   " none
      = (.error emptyTextMsg, none) :=
  create_note_rejects_blank "id-1" "2024-01-01T00:00:00+00:00" "   " none (by decide)

/-- C10: list never modifies the persisted state: whether it succeeds or
fails, the notes file's content after `list_notes` is exactly what it was
before the call. -/
theorem list_notes_preserves_disk (disk : Disk) : (list_notes disk).2 = disk := by
  cases h : load_notes_from_path disk <;> simp [list_notes, h]

/-- C1: For every input text whose trim is non-empty, a successful create
returns a Note whose text equals the trimmed input (hence non-empty),
whose updated_at is unset, and the persisted collection equals the
previously loaded collection with exactly this new Note appended at the
end. -/
theorem create_note_appends (newId now text : String) (disk : Disk) (ns : List Note)
    (htext : rustTrim text ≠ "") (hload : load_notes_from_path disk = .ok ns) :
    ∃ note : Note,
      (create_note newId now text disk).1 = .ok note ∧
      note.text = rustTrim text ∧ note.text ≠ "" ∧ note.updated_at = none ∧
      load_notes_from_path (create_note newId now text disk).2 = .ok (ns ++ [note]) := by
  refine ⟨⟨newId, rustTrim text, now, none⟩, ?_, rfl, htext, rfl, ?_⟩
  · simp [create_note, htext, hload]
  · simp [create_note, htext, hload, load_save]

/-- Witness for C1: creating " hello " on an empty disk. -/
theorem create_note_appends_witness :
    ∃ note : Note,
      (create_note "id-1" "2024-01-01T00:00:00+00:00" " hello " none).1 = .ok note ∧
      note.text = rustTrim " hello " ∧ note.text ≠ "" ∧ note.updated_at = none ∧
      load_notes_from_path
        (create_note "id-1" "2024-01-01T00:00:00+00:00" " hello " none).2
        = .ok ([] ++ [note]) :=
  create_note_appends "id-1" "2024-01-01T00:00:00+00:00" " hello " none []
    (by decide) rfl

/-- C4: For every id not matching any note in the stored collection,
delete fails with the `NotFound` error ("Note not found") and leaves the
on-disk collection byte-for-byte unchanged (no write is performed). -/
theorem delete_note_not_found (id : String) (disk : Disk) (ns : List Note)
    (hload : load_notes_from_path disk = .ok ns)
    (hid : ∀ n ∈ ns, n.id ≠ id) :
    delete_note id disk = (.error notFoundMsg, disk) := by
  have hfil : ns.filter (fun note => note.id ≠ id) = ns :=
    List.filter_eq_self.mpr fun a ha => by simpa using hid a ha
  simp [delete_note, hload, hfil]
  exact hid

/-- Witness for C4: deleting an absent id from a one-note disk. -/
theorem delete_note_not_found_witness :
    delete_note "id-z"
        (save_notes_to_path none [⟨"id-a", "A", "2024-01-01T00:00:00+00:00", none⟩])
      = (.error notFoundMsg,
         save_notes_to_path none [⟨"id-a", "A", "2024-01-01T00:00:00+00:00", none⟩]) :=
  delete_note_not_found "id-z" _ _
    (load_save none [⟨"id-a", "A", "2024-01-01T00:00:00+00:00", none⟩])
    (by decide)

/-- C7: Loading a missing file returns the empty collection; loading
content that is empty or whitespace-only (per the Unicode White_Space
class Rust's trim strips) returns the empty collection; loading
malformed (unparseable) content fails with the `StorageCorrupt` error,
and the enclosing operation (create or delete) writes nothing. The
malformed clause is stated for content that is not a JSON array at all
(its first character after JSON whitespace is missing or is not an
opening bracket): deserializing such a document into a vector of notes
fails in serde_json exactly as in this model, whereas on array-shaped
documents this model's parser is exact only on the serializer's image. -/
theorem load_notes_behavior :
    load_notes_from_path none = .ok [] ∧
    (∀ raw : List Char, raw.all rustIsWhitespace = true →
      load_notes_from_path (some raw) = .ok []) ∧
    (∀ raw : List Char, raw.all rustIsWhitespace = false →
      startsWithBracket raw = false →
      load_notes_from_path (some raw) = .error parseErrMsg) ∧
    (∀ newId now text : String, ∀ raw : List Char, ∀ e : String,
      load_notes_from_path (some raw) = .error e →
      (create_note newId now text (some raw)).2 = some raw) ∧
    (∀ id : String, ∀ raw : List Char, ∀ e : String,
      load_notes_from_path (some raw) = .error e →
      (delete_note id (some raw)).2 = some raw) := by
  refine ⟨rfl, ?_, ?_, ?_, ?_⟩
  · intro raw hraw
    simp [load_notes_from_path, hraw]
  · intro raw hraw hhead
    have he : expectTok '[' raw = none := by
      cases hsw : skipWs raw with
      | nil => simp [expectTok, hsw]
      | cons c cs =>
        have hc : ¬ (c = '[') := by
          have h2 := hhead
          simp [startsWithBracket, hsw] at h2
          exact h2
        simp [expectTok, hsw, hc]
    have hparse : parseNotes raw = none := by
      simp [parseNotes, he]
    simp [load_notes_from_path, hraw, hparse]
  · intro newId now text raw e hload
    by_cases htext : rustTrim text = ""
    · simp [create_note, htext]
    · simp [create_note, htext, hload]
  · intro id raw e hload
    simp [delete_note, hload]

/-- Witness for C7: content holding only a space and a vertical tab
(U+000B, whitespace for Rust's trim) loads as the empty collection, the
malformed content "x" fails with the parse error, and a create and a
delete on the malformed disk leave it untouched. -/
theorem load_notes_behavior_witness :
    load_notes_from_path (some [' ', '\x0b']) = .ok [] ∧
    load_notes_from_path (some ['x']) = .error parseErrMsg ∧
    (create_note "id-1" "2024-01-01T00:00:00+00:00" "hi" (some ['x'])).2 = some ['x'] ∧
    (delete_note "id-1" (some ['x'])).2 = some ['x'] :=
  ⟨load_notes_behavior.2.1 [' ', '\x0b'] (by decide),
   load_notes_behavior.2.2.1 ['x'] (by decide) (by decide),
   load_notes_behavior.2.2.2.1 "id-1" "2024-01-01T00:00:00+00:00" "hi" ['x']
     parseErrMsg (load_notes_behavior.2.2.1 ['x'] (by decide) (by decide)),
   load_notes_behavior.2.2.2.2 "id-1" ['x'] parseErrMsg
     (load_notes_behavior.2.2.1 ['x'] (by decide) (by decide))⟩

/-- C3: For every stored collection, list returns the notes sorted by
created_at descending (most recent first), and any two notes with equal
created_at appear in the same relative order as on disk (the sort is
stable, stated here in filter form: for every timestamp, the notes
carrying it appear in the output exactly in their on-disk order). -/
theorem list_notes_sorted (disk : Disk) (ns : List Note)
    (hload : load_notes_from_path disk = .ok ns) :
    ∃ out : List Note,
      (list_notes disk).1 = .ok out ∧
      List.Perm out ns ∧
      out.Pairwise (fun a b => strLe b.created_at a.created_at = true) ∧
      ∀ t : String, out.filter (fun n => n.created_at == t)
        = ns.filter (fun n => n.created_at == t) := by
  refine ⟨ns.mergeSort noteLe, by simp [list_notes, hload],
    List.mergeSort_perm ns noteLe, ?_, fun t => mergeSort_filter_created_at ns t⟩
  exact (List.sorted_mergeSort noteLe_trans noteLe_total ns).imp (fun h => h)

/-- Witness for C3 on a three-note disk with a created_at tie. -/
theorem list_notes_sorted_witness :
    ∃ out : List Note,
      (list_notes (save_notes_to_path none
          [⟨"id-a", "A", "2024-01-02T00:00:00+00:00", none⟩,
           ⟨"id-b", "B", "2024-01-01T00:00:00+00:00", none⟩,
           ⟨"id-c", "C", "2024-01-02T00:00:00+00:00", none⟩])).1 = .ok out ∧
      List.Perm out
          [⟨"id-a", "A", "2024-01-02T00:00:00+00:00", none⟩,
           ⟨"id-b", "B", "2024-01-01T00:00:00+00:00", none⟩,
           ⟨"id-c", "C", "2024-01-02T00:00:00+00:00", none⟩] ∧
      out.Pairwise (fun a b => strLe b.created_at a.created_at = true) ∧
      ∀ t : String, out.filter (fun n => n.created_at == t)
        = List.filter (fun n => n.created_at == t)
            [⟨"id-a", "A", "2024-01-02T00:00:00+00:00", none⟩,
             ⟨"id-b", "B", "2024-01-01T00:00:00+00:00", none⟩,
             ⟨"id-c", "C", "2024-01-02T00:00:00+00:00", none⟩] :=
  list_notes_sorted _ _ (load_save none
    [⟨"id-a", "A", "2024-01-02T00:00:00+00:00", none⟩,
     ⟨"id-b", "B", "2024-01-01T00:00:00+00:00", none⟩,
     ⟨"id-c", "C", "2024-01-02T00:00:00+00:00", none⟩])

/-- Removing the unique note carrying a present id shortens the
collection by exactly one. -/
theorem filter_ne_length (id : String) (ns : List Note)
    (huniq : ns.Pairwise (fun a b => a.id ≠ b.id))
    (hmem : ∃ n ∈ ns, n.id = id) :
    (ns.filter (fun n => n.id ≠ id)).length + 1 = ns.length := by
  induction ns with
  | nil => simp at hmem
  | cons a ns ih =>
    rcases hmem with ⟨m, hm, hmid⟩
    rcases List.mem_cons.mp hm with rfl | hm2
    · have hall : ∀ n ∈ ns, n.id ≠ id := by
        intro n hn hne
        exact (List.pairwise_cons.mp huniq).1 n hn (hmid.trans hne.symm)
      have hfil : ns.filter (fun n => n.id ≠ id) = ns :=
        List.filter_eq_self.mpr fun n hn => by simpa using hall n hn
      rw [List.filter_cons, show (decide (m.id ≠ id)) = false by simp [hmid],
        if_neg (by simp), hfil, List.length_cons]
    · have hane : a.id ≠ id := by
        intro he
        exact (List.pairwise_cons.mp huniq).1 m hm2 (he.trans hmid.symm)
      have ih2 := ih (List.pairwise_cons.mp huniq).2 ⟨m, hm2, hmid⟩
      rw [List.filter_cons, show (decide (a.id ≠ id)) = true by simp [hane],
        if_pos rfl, List.length_cons, List.length_cons]
      omega

/-- C5: For every id present in the stored collection (whose ids are
unique, the documented collection invariant), delete succeeds and removes
exactly one entry, and a subsequent list no longer contains a note with
that id. -/
theorem delete_note_present (id : String) (disk : Disk) (ns : List Note)
    (hload : load_notes_from_path disk = .ok ns)
    (huniq : ns.Pairwise (fun a b => a.id ≠ b.id))
    (hmem : ∃ n ∈ ns, n.id = id) :
    (delete_note id disk).1 = .ok () ∧
    (ns.filter (fun n => n.id ≠ id)).length + 1 = ns.length ∧
    load_notes_from_path (delete_note id disk).2
      = .ok (ns.filter (fun n => n.id ≠ id)) ∧
    ∀ out, (list_notes (delete_note id disk).2).1 = .ok out →
      ∀ n ∈ out, n.id ≠ id := by
  have hlen := filter_ne_length id ns huniq hmem
  have hne : ¬ ((ns.filter (fun n => n.id ≠ id)).length = ns.length) := by
    omega
  have hdel : delete_note id disk
      = (.ok (), save_notes_to_path disk (ns.filter (fun n => n.id ≠ id))) := by
    rw [delete_note, hload]
    simp only [if_neg hne]
  refine ⟨by rw [hdel], hlen, ?_, ?_⟩
  · rw [hdel]
    exact load_save disk _
  · intro out hout n hn
    rw [hdel] at hout
    have hl := load_save disk (ns.filter (fun n => n.id ≠ id))
    rw [list_notes, hl] at hout
    have heq : (ns.filter (fun n => n.id ≠ id)).mergeSort noteLe = out :=
      Except.ok.inj hout
    rw [← heq] at hn
    have hn2 : n ∈ ns.filter (fun m => m.id ≠ id) := List.mem_mergeSort.mp hn
    simpa using List.of_mem_filter hn2

/-- Witness for C5: deleting the first of two notes. -/
theorem delete_note_present_witness :
    (delete_note "id-a" (save_notes_to_path none
        [⟨"id-a", "A", "2024-01-01T00:00:00+00:00", none⟩,
         ⟨"id-b", "B", "2024-01-02T00:00:00+00:00", none⟩])).1 = .ok () ∧
    (List.filter (fun n : Note => n.id ≠ "id-a")
        [⟨"id-a", "A", "2024-01-01T00:00:00+00:00", none⟩,
         ⟨"id-b", "B", "2024-01-02T00:00:00+00:00", none⟩]).length + 1
      = ([⟨"id-a", "A", "2024-01-01T00:00:00+00:00", none⟩,
          ⟨"id-b", "B", "2024-01-02T00:00:00+00:00", none⟩] : List Note).length ∧
    load_notes_from_path (delete_note "id-a" (save_notes_to_path none
        [⟨"id-a", "A", "2024-01-01T00:00:00+00:00", none⟩,
         ⟨"id-b", "B", "2024-01-02T00:00:00+00:00", none⟩])).2
      = .ok (List.filter (fun n : Note => n.id ≠ "id-a")
        [⟨"id-a", "A", "2024-01-01T00:00:00+00:00", none⟩,
         ⟨"id-b", "B", "2024-01-02T00:00:00+00:00", none⟩]) ∧
    ∀ out, (list_notes (delete_note "id-a" (save_notes_to_path none
        [⟨"id-a", "A", "2024-01-01T00:00:00+00:00", none⟩,
         ⟨"id-b", "B", "2024-01-02T00:00:00+00:00", none⟩])).2).1 = .ok out →
      ∀ n ∈ out, n.id ≠ "id-a" :=
  delete_note_present "id-a" _ _
    (load_save none
      [⟨"id-a", "A", "2024-01-01T00:00:00+00:00", none⟩,
       ⟨"id-b", "B", "2024-01-02T00:00:00+00:00", none⟩])
    (by decide) (by decide)

/-- C8 counterexample: when the two creates carry the same timestamp
(which satisfies the claim's premise, B's created_at being greater than
or equal to A's), the listed order is [A, B], not [B, A]: the stable sort
keeps the on-disk order on a tie. -/
theorem list_after_create_pair_cex :
    (list_notes (create_note "id-b" "2024-01-01T00:00:00+00:00" "B"
        (create_note "id-a" "2024-01-01T00:00:00+00:00" "A" none).2).2).1
      ≠ .ok [⟨"id-b", "B", "2024-01-01T00:00:00+00:00", none⟩,
             ⟨"id-a", "A", "2024-01-01T00:00:00+00:00", none⟩] := by
  have hra : rustTrim "A" = "A" := by decide
  have hrb : rustTrim "B" = "B" := by decide
  have hA : ¬ (rustTrim "A" = "") := by decide
  have hB : ¬ (rustTrim "B" = "") := by decide
  have hA2 : ¬ (("A" : String) = "") := by decide
  have hB2 : ¬ (("B" : String) = "") := by decide
  have h1 : (create_note "id-a" "2024-01-01T00:00:00+00:00" "A" none).2
      = some (encodeNotes
          [⟨"id-a", "A", "2024-01-01T00:00:00+00:00", none⟩]) := by
    simp only [create_note, hA, hA2, if_false, load_notes_from_path,
      save_notes_to_path, List.nil_append, hra]
  have hl1 : load_notes_from_path (some (encodeNotes
        [⟨"id-a", "A", "2024-01-01T00:00:00+00:00", none⟩]))
      = .ok [⟨"id-a", "A", "2024-01-01T00:00:00+00:00", none⟩] :=
    load_save none [⟨"id-a", "A", "2024-01-01T00:00:00+00:00", none⟩]
  have h2 : (create_note "id-b" "2024-01-01T00:00:00+00:00" "B"
        (create_note "id-a" "2024-01-01T00:00:00+00:00" "A" none).2).2
      = some (encodeNotes
          [⟨"id-a", "A", "2024-01-01T00:00:00+00:00", none⟩,
           ⟨"id-b", "B", "2024-01-01T00:00:00+00:00", none⟩]) := by
    rw [h1]
    simp only [create_note, hB, hB2, if_false, hl1, save_notes_to_path,
      List.cons_append, List.nil_append, hrb]
  have hl2 : load_notes_from_path (some (encodeNotes
        [⟨"id-a", "A", "2024-01-01T00:00:00+00:00", none⟩,
         ⟨"id-b", "B", "2024-01-01T00:00:00+00:00", none⟩]))
      = .ok [⟨"id-a", "A", "2024-01-01T00:00:00+00:00", none⟩,
             ⟨"id-b", "B", "2024-01-01T00:00:00+00:00", none⟩] :=
    load_save none _
  have hcomp : (list_notes (create_note "id-b" "2024-01-01T00:00:00+00:00" "B"
        (create_note "id-a" "2024-01-01T00:00:00+00:00" "A" none).2).2).1
      = .ok [⟨"id-a", "A", "2024-01-01T00:00:00+00:00", none⟩,
             ⟨"id-b", "B", "2024-01-01T00:00:00+00:00", none⟩] := by
    rw [h2]
    simp [list_notes, hl2, List.mergeSort, List.merge,
      (by decide : noteLe
        (⟨"id-a", "A", "2024-01-01T00:00:00+00:00", none⟩ : Note)
        ⟨"id-b", "B", "2024-01-01T00:00:00+00:00", none⟩ = true)]
  rw [hcomp]
  intro h
  exact absurd (Except.ok.inj h) (by decide)

/-- C8 (amended): after create(A) then create(B) on an initially empty
store, list() returns [B, A] whenever B's created_at is strictly greater
than A's (on a tie the stable sort instead keeps creation order and
returns [A, B], as the counterexample shows). -/
theorem list_after_create_pair (idA idB tA tB nowA nowB : String)
    (hA : rustTrim tA ≠ "") (hB : rustTrim tB ≠ "")
    (hgt : strLe nowB nowA = false) :
    (list_notes (create_note idB nowB tB
        (create_note idA nowA tA none).2).2).1
      = .ok [⟨idB, rustTrim tB, nowB, none⟩, ⟨idA, rustTrim tA, nowA, none⟩] := by
  have h1 : (create_note idA nowA tA none).2
      = some (encodeNotes [⟨idA, rustTrim tA, nowA, none⟩]) := by
    simp only [create_note, hA, if_false, load_notes_from_path,
      save_notes_to_path, List.nil_append]
  have hl1 : load_notes_from_path (some (encodeNotes
        [⟨idA, rustTrim tA, nowA, none⟩]))
      = .ok [⟨idA, rustTrim tA, nowA, none⟩] :=
    load_save none [⟨idA, rustTrim tA, nowA, none⟩]
  have h2 : (create_note idB nowB tB (create_note idA nowA tA none).2).2
      = some (encodeNotes
          [⟨idA, rustTrim tA, nowA, none⟩, ⟨idB, rustTrim tB, nowB, none⟩]) := by
    rw [h1]
    simp only [create_note, hB, if_false, hl1, save_notes_to_path,
      List.cons_append, List.nil_append]
  have hl2 : load_notes_from_path (some (encodeNotes
        [⟨idA, rustTrim tA, nowA, none⟩, ⟨idB, rustTrim tB, nowB, none⟩]))
      = .ok [⟨idA, rustTrim tA, nowA, none⟩, ⟨idB, rustTrim tB, nowB, none⟩] :=
    load_save none _
  have hle : noteLe (⟨idA, rustTrim tA, nowA, none⟩ : Note)
      ⟨idB, rustTrim tB, nowB, none⟩ = false := by
    simpa [noteLe] using hgt
  rw [h2]
  simp [list_notes, hl2, List.mergeSort, List.merge, hle]

/-- Witness for the amended C8 with strictly increasing timestamps. -/
theorem list_after_create_pair_witness :
    (list_notes (create_note "id-b" "2024-01-02T00:00:00+00:00" "B"
        (create_note "id-a" "2024-01-01T00:00:00+00:00" "A" none).2).2).1
      = .ok [⟨"id-b", rustTrim "B", "2024-01-02T00:00:00+00:00", none⟩,
             ⟨"id-a", rustTrim "A", "2024-01-01T00:00:00+00:00", none⟩] :=
  list_after_create_pair "id-a" "id-b" "A" "B"
    "2024-01-01T00:00:00+00:00" "2024-01-02T00:00:00+00:00"
    (by decide) (by decide) (by decide)

/-- One axis of the capture-window clamp: when the window fits, the
result together with the window stays inside the work area; when it does
not fit, the result pins to the origin. -/
theorem positionCaptureCoord_spec (cursor origin size win : ℚ) :
    (win ≤ size → origin ≤ positionCaptureCoord cursor origin size win ∧
      positionCaptureCoord cursor origin size win + win ≤ origin + size) ∧
    (size < win → positionCaptureCoord cursor origin size win = origin) := by
  simp only [positionCaptureCoord, fclamp]
  constructor
  · intro h
    rw [if_neg (by linarith : ¬ origin + size - win < origin)]
    split_ifs <;> constructor <;> linarith
  · intro h
    rw [if_pos (by linarith)]

/-- C9: Capture-window placement: for a pointer inside a display's work
area, the computed position (pointer offset by 14 per axis, clamped per
axis to the work area minus the surface size) keeps the surface's full
bounding box inside the work area on every axis where the surface fits;
on an axis where the surface is larger than the work area, the computed
coordinate equals the work area's origin. -/
theorem position_capture_window_spec (cx cy ww wh : ℚ) (area : WorkArea)
    (hx : area.left ≤ cx ∧ cx < area.left + area.width)
    (hy : area.top ≤ cy ∧ cy < area.top + area.height) :
    ((ww ≤ area.width →
        area.left ≤ (position_capture_window cx cy ww wh area).1 ∧
        (position_capture_window cx cy ww wh area).1 + ww
          ≤ area.left + area.width) ∧
      (area.width < ww →
        (position_capture_window cx cy ww wh area).1 = area.left)) ∧
    ((wh ≤ area.height →
        area.top ≤ (position_capture_window cx cy ww wh area).2 ∧
        (position_capture_window cx cy ww wh area).2 + wh
          ≤ area.top + area.height) ∧
      (area.height < wh →
        (position_capture_window cx cy ww wh area).2 = area.top)) :=
  ⟨positionCaptureCoord_spec cx area.left area.width ww,
   positionCaptureCoord_spec cy area.top area.height wh⟩

/-- Witness for C9: pointer at (5, 5) in the work area [0,100]x[0,100],
surface 2 wide (fits) and 200 tall (does not fit). -/
theorem position_capture_window_spec_witness :
    (((2:ℚ) ≤ 100 →
        (0:ℚ) ≤ (position_capture_window 5 5 2 200 ⟨0, 0, 100, 100⟩).1 ∧
        (position_capture_window 5 5 2 200 ⟨0, 0, 100, 100⟩).1 + 2 ≤ 0 + 100) ∧
      ((100:ℚ) < 2 →
        (position_capture_window 5 5 2 200 ⟨0, 0, 100, 100⟩).1 = 0)) ∧
    (((200:ℚ) ≤ 100 →
        (0:ℚ) ≤ (position_capture_window 5 5 2 200 ⟨0, 0, 100, 100⟩).2 ∧
        (position_capture_window 5 5 2 200 ⟨0, 0, 100, 100⟩).2 + 200 ≤ 0 + 100) ∧
      ((100:ℚ) < 200 →
        (position_capture_window 5 5 2 200 ⟨0, 0, 100, 100⟩).2 = 0)) :=
  position_capture_window_spec 5 5 2 200 ⟨0, 0, 100, 100⟩
    (by norm_num) (by norm_num)

end Jotin
